import Mathlib

/-!
# Verification of torchhydro's dataset and scaler core

Shallow embedding of `torchhydro/datasets/data_sets.py` and
`torchhydro/datasets/data_scalers.py`: the `KuaiSampler` batch-size shrink
loop and iteration count, the `BaseDataset` lookup table and windowed
`__getitem__`, the `BasinSingleFlowDataset` variant, the `DapengScaler`
statistics persistence logic, and (modelled from the specification, since
`data_utils.py` is not part of the sources) the normalization transforms.
-/

namespace TorchHydro

/-! ## KuaiSampler: batch-size shrink loop (data_sets.py lines 292-295)

Python:
```
while batch_size * rho >= ngrid * nt:
    batch_size = int(batch_size / 10)
batch_size = max(batch_size, 1)
```
`int(batch_size / 10)` is floor division for the integer magnitudes in use;
the loop is modelled fuel-indexed (fuel `b+1` always suffices, proved below),
returning `none` when the fuel runs out. -/

/-- One fuel-indexed run of the shrink loop body. -/
def shrinkGo (rho ngnt : ℕ) : ℕ → ℕ → Option ℕ
  | 0, b => if ngnt ≤ b * rho then none else some b
  | fuel + 1, b => if ngnt ≤ b * rho then shrinkGo rho ngnt fuel (b / 10) else some b

/-- The shrink loop of `KuaiSampler.__init__` followed by the `max(batch_size, 1)`
floor, with fuel `b + 1`. -/
def kuaiShrunkBatch (b rho ngrid nt : ℕ) : Option ℕ :=
  (shrinkGo rho (ngrid * nt) (b + 1) b).map (fun x => max x 1)

/-- `n_iter_ep` of `KuaiSampler.__init__` (data_sets.py lines 297-302), with the
floats of `np.log`/`np.ceil` modelled over the reals:
`int(np.ceil(np.log(0.01) / np.log(1 - batch_size * rho / ngrid / (nt - warmup_length))))`. -/
noncomputable def nIterEp (b rho ngrid nt w : ℕ) : ℤ :=
  Int.ceil (Real.log (1 / 100) /
    Real.log (1 - (b : ℝ) * (rho : ℝ) / (ngrid : ℝ) / ((nt : ℝ) - (w : ℝ))))

/-- `num_samples` handed to `RandomSampler` (data_sets.py line 306): `n_iter_ep * batch_size`,
computed from the shrunk-and-floored batch size. -/
noncomputable def kuaiNumSamples (b rho ngrid nt w : ℕ) : Option ℤ :=
  (kuaiShrunkBatch b rho ngrid nt).map (fun b2 => nIterEp b2 rho ngrid nt w * (b2 : ℤ))

/-- The loop exits with a value strictly below the threshold whenever the
threshold is positive and the fuel exceeds the initial value. -/
theorem shrinkGo_spec (rho ngnt : ℕ) (hpos : 0 < ngnt) :
    ∀ fuel b, b < fuel → ∃ b1, shrinkGo rho ngnt fuel b = some b1 ∧ b1 * rho < ngnt := by
  intro fuel
  induction fuel with
  | zero => intro b hb; omega
  | succ n ih =>
    intro b hb
    by_cases h : ngnt ≤ b * rho
    · have hb0 : 0 < b := by
        rcases Nat.eq_zero_or_pos b with h0 | h0
        · subst h0; simp at h; omega
        · exact h0
      have hlt : b / 10 < n := by
        have := Nat.div_lt_self hb0 (by omega : 1 < 10)
        omega
      obtain ⟨b1, hb1, hb1lt⟩ := ih (b / 10) hlt
      exact ⟨b1, by simp [shrinkGo, h, hb1], hb1lt⟩
    · exact ⟨b, by simp [shrinkGo, h], by omega⟩

/-- Helper: the real-modelled `n_iter_ep` is at least 1 whenever the coverage
ratio `b*rho / (ngrid*(nt-w))` lies strictly between 0 and 1. -/
theorem nIterEp_pos (b rho ngrid nt w : ℕ) (hb : 0 < b) (hr : 0 < rho)
    (hcov : b * rho < ngrid * (nt - w)) : 1 ≤ nIterEp b rho ngrid nt w := by
  have hg : 0 < ngrid := by
    rcases Nat.eq_zero_or_pos ngrid with h | h
    · subst h; simp at hcov
    · exact h
  have hnw : 0 < nt - w := by
    rcases Nat.eq_zero_or_pos (nt - w) with h | h
    · rw [h, Nat.mul_zero] at hcov; omega
    · exact h
  have hwlt : w < nt := by omega
  set q : ℝ := (b : ℝ) * (rho : ℝ) / (ngrid : ℝ) / ((nt : ℝ) - (w : ℝ)) with hq
  have hd : (0 : ℝ) < (ngrid : ℝ) * ((nt : ℝ) - (w : ℝ)) := by
    have h1 : (0 : ℝ) < (ngrid : ℝ) := by exact_mod_cast hg
    have h2 : (w : ℝ) < (nt : ℝ) := by exact_mod_cast hwlt
    have h3 : (0 : ℝ) < (nt : ℝ) - (w : ℝ) := by linarith
    exact mul_pos h1 h3
  have hnum : (0 : ℝ) < (b : ℝ) * (rho : ℝ) := by
    have h1 : (0 : ℝ) < (b : ℝ) := by exact_mod_cast hb
    have h2 : (0 : ℝ) < (rho : ℝ) := by exact_mod_cast hr
    exact mul_pos h1 h2
  have hq0 : 0 < q := by rw [hq, div_div]; exact div_pos hnum hd
  have hqnum : (b : ℝ) * (rho : ℝ) < (ngrid : ℝ) * ((nt : ℝ) - (w : ℝ)) := by
    have h1 := (Nat.cast_lt (α := ℝ)).mpr hcov
    push_cast [Nat.cast_sub hwlt.le] at h1
    linarith
  have hq1 : q < 1 := by rw [hq, div_div]; exact (div_lt_one hd).mpr hqnum
  have hlog1 : Real.log (1 / 100) < 0 := Real.log_neg (by norm_num) (by norm_num)
  have hlog2 : Real.log (1 - q) < 0 := Real.log_neg (by linarith) (by linarith)
  have hratio : 0 < Real.log (1 / 100) / Real.log (1 - q) :=
    div_pos_of_neg_of_neg hlog1 hlog2
  have hceil : 0 < nIterEp b rho ngrid nt w := by
    rw [nIterEp]
    exact Int.ceil_pos.mpr hratio
  omega

/-- **C1.** Amended claim for the `KuaiSampler.__init__` shrink loop: for
positive `ngrid, nt, rho, b, w` with `rho ≤ nt`, the loop terminates with a
batch size `b2 ≥ 1`; provided `rho < ngrid * nt`, the floored batch size still
satisfies `b2 * rho < ngrid * nt`; and provided `b2 * rho < ngrid * (nt - w)`,
the iteration count `n_iter_ep` is at least 1.  (As originally stated —
unconditionally `b2 * rho < ngrid * nt` and `n_iter ≥ 1` — the claim is false;
see the counterexample.) -/
theorem kuaiSampler_shrink_terminates_valid (ngrid nt rho b w : ℕ)
    (hg : 0 < ngrid) (hn : 0 < nt) (hr : 0 < rho) (hb : 0 < b) (hw : 0 < w)
    (hrn : rho ≤ nt) :
    ∃ b2, kuaiShrunkBatch b rho ngrid nt = some b2 ∧ 1 ≤ b2 ∧
      (rho < ngrid * nt → b2 * rho < ngrid * nt) ∧
      (b2 * rho < ngrid * (nt - w) → 1 ≤ nIterEp b2 rho ngrid nt w) := by
  have hpos : 0 < ngrid * nt := Nat.mul_pos hg hn
  obtain ⟨b1, hb1, hb1lt⟩ :=
    shrinkGo_spec rho (ngrid * nt) hpos (b + 1) b (Nat.lt_succ_self b)
  refine ⟨max b1 1, ?_, le_max_right _ _, ?_, ?_⟩
  · simp [kuaiShrunkBatch, hb1]
  · intro hrho
    rcases Nat.eq_zero_or_pos b1 with h0 | h0
    · subst h0; simpa using hrho
    · have : max b1 1 = b1 := Nat.max_eq_left h0
      rw [this]; exact hb1lt
  · intro hcov
    exact nIterEp_pos _ _ _ _ _ (by omega) hr hcov

/-- **C1** counterexample: at `ngrid = 1, nt = 5, rho = 5, b = 10` (all positive,
`rho ≤ nt`), the loop shrinks `b` to 0, the floor raises it to 1, and then
`b * rho = 5 = ngrid * nt`, refuting the claimed `b * rho < ngrid * nt`. -/
theorem kuaiSampler_shrink_counterexample :
    kuaiShrunkBatch 10 5 1 5 = some 1 ∧ ¬ ((1 : ℕ) * 5 < 1 * 5) := by
  refine ⟨by decide, by decide⟩

/-- **C1** witness: the amended theorem applied at `ngrid = 2, nt = 10, rho = 3,
b = 5, w = 1`. -/
theorem kuaiSampler_shrink_terminates_valid_witness :
    ∃ b2, kuaiShrunkBatch 5 3 2 10 = some b2 ∧ 1 ≤ b2 ∧
      (3 < 2 * 10 → b2 * 3 < 2 * 10) ∧
      (b2 * 3 < 2 * (10 - 1) → 1 ≤ nIterEp b2 3 2 10 1) :=
  kuaiSampler_shrink_terminates_valid 2 10 3 5 1 (by decide) (by decide)
    (by decide) (by decide) (by decide) (by decide)

/-! ## Lookup table (`BaseDataset._create_lookup_table`, data_sets.py lines 224-243)

Python:
```
for basin in basins:
    lookup.extend((basin, dates[f])
                  for f in range(warmup_length, time_length)
                  if f < time_length - rho + 1)
self.lookup_table = dict(enumerate(lookup))
self.num_samples = len(self.lookup_table)
```
Timestamps are modelled by their index on the time axis (`dates` is a fixed
ascending axis, so `dates[f]` is determined by `f`); Python's signed arithmetic
in `time_length - rho + 1` is modelled in `ℤ`. Basin identifiers are opaque
labels. -/

/-- Window-start indices contributed by one basin: the filtered comprehension
`for f in range(warmup_length, time_length) if f < time_length - rho + 1`. -/
def validStarts (w rho T : ℕ) : List ℕ :=
  (List.range' w (T - w)).filter (fun f => decide ((f : ℤ) < (T : ℤ) - (rho : ℤ) + 1))

/-- The lookup table as the enumerated list of `(basin, start)` pairs, one block
per basin in the given order. -/
def lookupList {α : Type} (basins : List α) (w rho T : ℕ) : List (α × ℕ) :=
  basins.flatMap (fun b => (validStarts w rho T).map (fun f => (b, f)))

/-- Filtering `i < c` out of `range' a m` keeps a prefix block. -/
theorem range'_filter_lt (a m c : ℕ) :
    (List.range' a m).filter (fun i => decide (i < c)) =
      List.range' a (min c (a + m) - a) := by
  induction m generalizing a with
  | zero =>
    have h : min c (a + 0) - a = 0 := by omega
    simp [h]
  | succ n ih =>
    rw [List.range'_succ, List.filter_cons]
    by_cases h : a < c
    · have h2 : min c (a + (n + 1)) - a = (min c ((a + 1) + n) - (a + 1)) + 1 := by
        omega
      have hcond : decide (a < c) = true := by simpa using h
      rw [if_pos hcond, ih (a + 1), h2, List.range'_succ]
    · have h2 : min c (a + (n + 1)) - a = 0 := by omega
      have h3 : min c ((a + 1) + n) - (a + 1) = 0 := by omega
      simp [h, ih (a + 1), h2, h3]

/-- `validStarts` is the contiguous block `[w, T - rho]` once `w + rho ≤ T`. -/
theorem validStarts_eq (w rho T : ℕ) (hr : 0 < rho) (hwT : w + rho ≤ T) :
    validStarts w rho T = List.range' w (T + 1 - rho - w) := by
  rw [validStarts]
  have hcong : ∀ f ∈ List.range' w (T - w),
      (decide ((f : ℤ) < (T : ℤ) - (rho : ℤ) + 1)) =
        (decide (f < T + 1 - rho)) := by
    intro f _
    apply decide_eq_decide.mpr
    omega
  rw [List.filter_congr hcong, range'_filter_lt]
  have : min (T + 1 - rho) (w + (T - w)) - w = T + 1 - rho - w := by omega
  rw [this]

/-- `validStarts` is empty once the window no longer fits: `rho > T - w`. -/
theorem validStarts_nil (w rho T : ℕ) (h : (T : ℤ) - (w : ℤ) < (rho : ℤ)) :
    validStarts w rho T = [] := by
  rw [validStarts]
  have hcong : ∀ f ∈ List.range' w (T - w),
      (decide ((f : ℤ) < (T : ℤ) - (rho : ℤ) + 1)) = (decide (f < w)) := by
    intro f hf
    rw [List.mem_range'] at hf
    obtain ⟨i, hi, rfl⟩ := hf
    apply decide_eq_decide.mpr
    omega
  rw [List.filter_congr hcong, range'_filter_lt]
  have : min w (w + (T - w)) - w = 0 := by omega
  rw [this, List.range']

/-- A `flatMap` of per-basin blocks of equal size has `basins × block` entries. -/
theorem flatMap_map_length {α β γ : Type} (bs : List α) (ss : List β)
    (f : α → β → γ) :
    (bs.flatMap (fun b => ss.map (f b))).length = bs.length * ss.length := by
  induction bs with
  | nil => simp
  | cons b bs ih =>
    rw [List.flatMap_cons, List.length_append, List.length_map, ih,
      List.length_cons]
    ring

/-- **C2.** Lookup-table size: with `0 < nt - rho - w + 1` the table has exactly
`ngrid * (nt - rho - w + 1)` entries, and a basin with `rho > nt - w`
contributes zero entries (no error). -/
theorem lookup_table_size {α : Type} (basins : List α) (w rho T : ℕ)
    (hr : 0 < rho) :
    ((0 : ℤ) < (T : ℤ) - (rho : ℤ) - (w : ℤ) + 1 →
      ((lookupList basins w rho T).length : ℤ) =
        (basins.length : ℤ) * ((T : ℤ) - (rho : ℤ) - (w : ℤ) + 1)) ∧
    ((T : ℤ) - (w : ℤ) < (rho : ℤ) → validStarts w rho T = []) := by
  constructor
  · intro hpos
    have hwT : w + rho ≤ T := by omega
    rw [lookupList, flatMap_map_length, validStarts_eq w rho T hr hwT,
      List.length_range']
    have hT : ((T + 1 - rho - w : ℕ) : ℤ) = (T : ℤ) - (rho : ℤ) - (w : ℤ) + 1 := by
      omega
    push_cast [hT]
    ring
  · intro h
    exact validStarts_nil w rho T h

/-- **C2** witness: 3 basins, 10 timestamps, `rho = 3`, `w = 2` give
`3 × 6 = 18` entries, as in the specification's example. -/
theorem lookup_table_size_witness :
    ((lookupList [0, 1, 2] 2 3 10).length : ℤ) =
      (([0, 1, 2] : List ℕ).length : ℤ) * ((10 : ℤ) - (3 : ℤ) - (2 : ℤ) + 1) :=
  (lookup_table_size [0, 1, 2] 2 3 10 (by decide)).1 (by decide)

/-- Position `u * |block| + j` of a `flatMap` of equal-size per-basin blocks is
entry `j` of basin `u`'s block. -/
theorem flatMap_map_getElem {α β : Type} (bs : List α) (ss : List β) (u j : ℕ)
    (hu : u < bs.length) (hj : j < ss.length) :
    (bs.flatMap (fun b => ss.map (fun s => (b, s))))[u * ss.length + j]? =
      some (bs.get ⟨u, hu⟩, ss.get ⟨j, hj⟩) := by
  induction bs generalizing u with
  | nil => simp at hu
  | cons b bs ih =>
    rw [List.flatMap_cons]
    cases u with
    | zero =>
      rw [Nat.zero_mul, Nat.zero_add,
        List.getElem?_append_left (by simpa using hj),
        List.getElem?_map, List.getElem?_eq_getElem hj]
      rfl
    | succ u =>
      have hle : (ss.map (fun s => (b, s))).length ≤ (u + 1) * ss.length + j := by
        rw [List.length_map, Nat.succ_mul]
        omega
      rw [List.getElem?_append_right hle]
      have hidx : (u + 1) * ss.length + j - (ss.map (fun s => (b, s))).length =
          u * ss.length + j := by
        rw [List.length_map, Nat.succ_mul]
        omega
      rw [hidx]
      exact ih u (by simpa using hu)

/-- **C3.** Lookup-table ordering: entries are unit-major, time-minor — with
`m = T + 1 - rho - w` valid starts per basin, the entry with id `u * m + j`
is basin `u` (in the given order) paired with its `j`-th valid start `w + j`,
ascending; in particular id 0 is the first basin's earliest valid window, and
the table is a deterministic function of the basin ordering. -/
theorem lookup_table_ordering {α : Type} (basins : List α) (w rho T u j : ℕ)
    (hr : 0 < rho) (hwT : w + rho ≤ T) (hu : u < basins.length)
    (hj : j < T + 1 - rho - w) :
    (lookupList basins w rho T)[u * (T + 1 - rho - w) + j]? =
      some (basins.get ⟨u, hu⟩, w + j) := by
  have hv := validStarts_eq w rho T hr hwT
  have hjv : j < (validStarts w rho T).length := by
    rw [hv, List.length_range']
    exact hj
  have hlen : (validStarts w rho T).length = T + 1 - rho - w := by
    rw [hv, List.length_range']
  rw [lookupList, ← hlen, flatMap_map_getElem basins (validStarts w rho T) u j hu hjv]
  have h1 : (validStarts w rho T)[j]? = some (w + j) := by
    rw [hv, List.getElem?_eq_getElem (by simpa using hj)]
    simp [List.getElem_range'_1]
  rw [List.getElem?_eq_getElem hjv] at h1
  have h2 : (validStarts w rho T).get ⟨j, hjv⟩ = w + j := by
    rw [List.get_eq_getElem]
    exact Option.some.inj h1
  rw [h2]

/-- **C3** witness: with basins `[10, 20]`, `w = 2`, `rho = 3`, `T = 10`
(so 6 starts per basin), id `1 * 6 + 0 = 6` is basin `20` at start `2`. -/
theorem lookup_table_ordering_witness :
    (lookupList [10, 20] 2 3 10)[1 * (10 + 1 - 3 - 2) + 0]? =
      some (([10, 20] : List ℕ).get ⟨1, by decide⟩, 2 + 0) :=
  lookup_table_ordering [10, 20] 2 3 10 1 0 (by decide) (by decide) (by decide)
    (by decide)

/-- **C4.** Lookup-table invariant: every entry `(basin, start)` satisfies
`warmup_length ≤ start` and `start ≤ time_length - rho`, so the window
`[start - warmup_length, start + rho - 1]` lies within the time axis. -/
theorem lookup_table_invariant {α : Type} (basins : List α) (w rho T : ℕ)
    (b : α) (f : ℕ) (hmem : (b, f) ∈ lookupList basins w rho T) :
    w ≤ f ∧ (f : ℤ) ≤ (T : ℤ) - (rho : ℤ) := by
  rw [lookupList, List.mem_flatMap] at hmem
  obtain ⟨b1, _, hmem⟩ := hmem
  rw [List.mem_map] at hmem
  obtain ⟨f1, hf1, heq⟩ := hmem
  have hf : f1 = f := congrArg Prod.snd heq
  subst hf
  rw [validStarts, List.mem_filter, List.mem_range'] at hf1
  obtain ⟨⟨i, hi, rfl⟩, hdec⟩ := hf1
  have := of_decide_eq_true hdec
  omega

/-- **C4** witness: `(7, 2)` is an entry of the table for basins `[7]`,
`w = 2`, `rho = 3`, `T = 10`, and it satisfies both bounds. -/
theorem lookup_table_invariant_witness :
    2 ≤ 2 ∧ ((2 : ℕ) : ℤ) ≤ (10 : ℤ) - (3 : ℤ) :=
  lookup_table_invariant [7] 2 3 10 7 2 (by decide)

/-! ## Normalization transforms

`DapengScaler.get_data_obs` / `inverse_transform` delegate the per-variable
numeric transforms to `_trans_norm` / `_prcp_norm` in `data_utils.py`, which is
not among the sources; the transforms below are therefore modelled from the
specification (§4.3), with the floats modelled over the reals. -/

/-- Modelled from the spec: plain z-score forward transform
`(x - mean) / std` (`_trans_norm`, `to_norm=True`, of the missing
`data_utils.py`). -/
noncomputable def plainNorm (mean std x : ℝ) : ℝ := (x - mean) / std

/-- Modelled from the spec: plain de-normalization `z * std + mean`
(`_trans_norm`, `to_norm=False`, of the missing `data_utils.py`). -/
noncomputable def plainDenorm (mean std z : ℝ) : ℝ := z * std + mean

/-- Modelled from the spec: gamma forward transform — `log(sqrt(x) + 0.1)`
applied before the plain z-score (log-norm branch of `_trans_norm`). -/
noncomputable def gammaNorm (mean std x : ℝ) : ℝ :=
  plainNorm mean std (Real.log (Real.sqrt x + 0.1))

/-- Modelled from the spec: gamma inverse — plain de-normalization followed by
`x = (exp(z) - 0.1)^2`. -/
noncomputable def gammaDenorm (mean std z : ℝ) : ℝ :=
  (Real.exp (plainDenorm mean std z) - 0.1) ^ 2

/-- Modelled from the spec: ratio-to-reference forward — divide by the
per-basin reference covariate (`_prcp_norm`, `to_norm=True`, of the missing
`data_utils.py`), then plain z-score. -/
noncomputable def prcpRefNorm (mean std ref x : ℝ) : ℝ :=
  plainNorm mean std (x / ref)

/-- Modelled from the spec: ratio-to-reference inverse — plain
de-normalization, then multiply back by the reference covariate. -/
noncomputable def prcpRefDenorm (mean std ref z : ℝ) : ℝ :=
  plainDenorm mean std z * ref

/-- **C5.** Round-trip: for each normalization policy the inverse composed
with the forward transform is the identity — plain z-score for `std ≠ 0`,
gamma (`log(sqrt(x) + 0.1)` in, `(exp(z) - 0.1)^2` out) for `x ≥ 0`, and
ratio-to-reference for `ref ≠ 0`. -/
theorem normalization_roundtrip (m s r x : ℝ) (hs : s ≠ 0) (hx : 0 ≤ x)
    (hr : r ≠ 0) :
    plainDenorm m s (plainNorm m s x) = x ∧
    gammaDenorm m s (gammaNorm m s x) = x ∧
    prcpRefDenorm m s r (prcpRefNorm m s r x) = x := by
  have hplain : ∀ y : ℝ, plainDenorm m s (plainNorm m s y) = y := by
    intro y
    rw [plainDenorm, plainNorm]
    field_simp
  refine ⟨hplain x, ?_, ?_⟩
  · rw [gammaDenorm, gammaNorm, hplain]
    have hpos : 0 < Real.sqrt x + 0.1 := by
      have := Real.sqrt_nonneg x
      norm_num
      linarith
    rw [Real.exp_log hpos]
    have hsub : Real.sqrt x + 0.1 - 0.1 = Real.sqrt x := by ring
    rw [hsub, Real.sq_sqrt hx]
  · rw [prcpRefDenorm, prcpRefNorm, hplain]
    field_simp

/-- **C5** witness: the round-trip at the boundary value `x = 0` with
`mean = 0`, `std = 1`, `ref = 1`. -/
theorem normalization_roundtrip_witness :
    plainDenorm 0 1 (plainNorm 0 1 0) = 0 ∧
    gammaDenorm 0 1 (gammaNorm 0 1 0) = 0 ∧
    prcpRefDenorm 0 1 1 (prcpRefNorm 0 1 1 0) = 0 :=
  normalization_roundtrip 0 1 1 0 (by norm_num) (by norm_num) (by norm_num)

/-! ## Statistics persistence (`DapengScaler.__init__`, data_scalers.py lines 225-238)

Python:
```
stat_file = os.path.join(data_params["test_path"], "dapengscaler_stat.json")
if loader_type == "train" and data_params["stat_dict_file"] is None:
    self.stat_dict = self.cal_stat_all()
    with open(stat_file, "w") as fp: json.dump(self.stat_dict, fp)
else:
    if data_params["stat_dict_file"] is not None:
        shutil.copy(data_params["stat_dict_file"], stat_file)
    assert os.path.isfile(stat_file)
    with open(stat_file, "r") as fp: self.stat_dict = json.load(fp)
```
The filesystem is modelled as a map from path to optional content; `computed`
stands for the value `cal_stat_all()` would produce from the given data.
`shutil.copy` of a missing source raises `FileNotFoundError`
(`copySourceMissing`); the failing `assert` is `statFileMissing`. -/

inductive LoaderType
  | train
  | valid
  | test
deriving DecidableEq

inductive ScalerInitError
  | copySourceMissing
  | statFileMissing
deriving DecidableEq

/-- Write one file into the modelled filesystem. -/
def fsWrite {σ : Type} (fs : String → Option σ) (p : String) (v : σ) :
    String → Option σ :=
  fun q => if q = p then some v else fs q

/-- The statistics step of `DapengScaler.__init__`: returns the adopted
`stat_dict` and the filesystem after the run, or the raised error. -/
def dapengScalerStats {σ : Type} (lt : LoaderType) (ext : Option String)
    (fs : String → Option σ) (computed : σ) (statFile : String) :
    Except ScalerInitError (σ × (String → Option σ)) :=
  if lt = LoaderType.train ∧ ext = none then
    Except.ok (computed, fsWrite fs statFile computed)
  else
    match ext with
    | some p =>
      match fs p with
      | some v =>
        match fsWrite fs statFile v statFile with
        | some v1 => Except.ok (v1, fsWrite fs statFile v)
        | none => Except.error ScalerInitError.statFileMissing
      | none => Except.error ScalerInitError.copySourceMissing
    | none =>
      match fs statFile with
      | some v => Except.ok (v, fs)
      | none => Except.error ScalerInitError.statFileMissing

/-- **C6.** At valid/test time (or at train time with an external statistics
file supplied) the `DapengScaler` statistics are never recomputed from the
given data: the outcome is independent of the would-be computed statistics;
a missing record on disk with no external file is a fatal assertion error;
a missing external file is a fatal copy error; and a supplied external file is
copied to the run-directory stat file and its content adopted verbatim. -/
theorem scaler_stats_never_recomputed {σ : Type} (lt : LoaderType)
    (ext : Option String) (fs : String → Option σ) (c1 c2 v : σ) (p statFile : String)
    (h : ¬ (lt = LoaderType.train ∧ ext = none)) :
    (dapengScalerStats lt ext fs c1 statFile =
      dapengScalerStats lt ext fs c2 statFile) ∧
    (ext = none → fs statFile = none →
      dapengScalerStats lt ext fs c1 statFile =
        Except.error ScalerInitError.statFileMissing) ∧
    (ext = some p → fs p = some v →
      dapengScalerStats lt ext fs c1 statFile =
        Except.ok (v, fsWrite fs statFile v)) ∧
    (ext = some p → fs p = none →
      dapengScalerStats lt ext fs c1 statFile =
        Except.error ScalerInitError.copySourceMissing) ∧
    (ext = none → fs statFile = some v →
      dapengScalerStats lt ext fs c1 statFile = Except.ok (v, fs)) := by
  refine ⟨?_, ?_, ?_, ?_, ?_⟩
  · simp only [dapengScalerStats, if_neg h]
  · intro hext hfs
    subst hext
    have hlt : ¬ lt = LoaderType.train := by simpa using h
    simp [dapengScalerStats, hlt, hfs]
  · intro hext hfs
    subst hext
    simp [dapengScalerStats, if_neg h, hfs, fsWrite]
  · intro hext hfs
    subst hext
    simp [dapengScalerStats, if_neg h, hfs]
  · intro hext hfs
    subst hext
    have hlt : ¬ lt = LoaderType.train := by simpa using h
    simp [dapengScalerStats, hlt, hfs]

/-- **C6** witness: a valid-time scaler with an external statistics file
present on disk: the outcome ignores the computed statistics (0 versus 1) and
adopts the external record 42, copied onto the stat file. -/
theorem scaler_stats_never_recomputed_witness :
    (dapengScalerStats LoaderType.valid (some "ext.json")
        (fun q => if q = "ext.json" then some 42 else none) 0 "stat.json" =
      dapengScalerStats LoaderType.valid (some "ext.json")
        (fun q => if q = "ext.json" then some 42 else none) 1 "stat.json") ∧
    (some "ext.json" = none →
      (fun q => if q = "ext.json" then some (42 : ℕ) else none) "stat.json" = none →
      dapengScalerStats LoaderType.valid (some "ext.json")
        (fun q => if q = "ext.json" then some 42 else none) 0 "stat.json" =
        Except.error ScalerInitError.statFileMissing) ∧
    (some "ext.json" = some "ext.json" →
      (fun q => if q = "ext.json" then some (42 : ℕ) else none) "ext.json" = some 42 →
      dapengScalerStats LoaderType.valid (some "ext.json")
        (fun q => if q = "ext.json" then some 42 else none) 0 "stat.json" =
        Except.ok (42, fsWrite (fun q => if q = "ext.json" then some 42 else none)
          "stat.json" 42)) ∧
    (some "ext.json" = some "ext.json" →
      (fun q => if q = "ext.json" then some (42 : ℕ) else none) "ext.json" = none →
      dapengScalerStats LoaderType.valid (some "ext.json")
        (fun q => if q = "ext.json" then some 42 else none) 0 "stat.json" =
        Except.error ScalerInitError.copySourceMissing) ∧
    (some "ext.json" = none →
      (fun q => if q = "ext.json" then some (42 : ℕ) else none) "stat.json" = some 42 →
      dapengScalerStats LoaderType.valid (some "ext.json")
        (fun q => if q = "ext.json" then some 42 else none) 0 "stat.json" =
        Except.ok (42, fun q => if q = "ext.json" then some 42 else none)) :=
  scaler_stats_never_recomputed LoaderType.valid (some "ext.json")
    (fun q => if q = "ext.json" then some 42 else none) 0 1 42 "ext.json"
    "stat.json" (by decide)

/-! ## Train-mode indexed access (`BaseDataset.__getitem__`, data_sets.py lines 94-135)

The xarray label slice `.sel(time=slice(lo, hi))` selects, inclusively, the
timestamps of the axis lying in `[lo, hi]`; the axis is modelled by indices
`0..T-1` with day-granularity arithmetic, so `time - np.timedelta64(w, "D")`
is `time - w`. Data arrays are functions from `(basin, time)` to the feature
row; attributes are a per-basin row, with the `c is None or c.shape[-1] == 0`
guard modelled by the empty row. `np.concatenate` of mismatched shapes raises,
modelled by `none`. -/

/-- The inclusive label slice of xarray on a time axis `0..T-1`. -/
def labelSlice (T : ℕ) (lo hi : ℤ) : List ℕ :=
  (List.range T).filter (fun i => decide (lo ≤ (i : ℤ) ∧ (i : ℤ) ≤ hi))

/-- Filtering `l ≤ i` out of `range' a m` keeps a suffix block. -/
theorem range'_filter_ge (a m l : ℕ) :
    (List.range' a m).filter (fun i => decide (l ≤ i)) =
      List.range' (max a l) (a + m - max a l) := by
  induction m generalizing a with
  | zero =>
    have h : a + 0 - max a l = 0 := by omega
    simp [h]
  | succ n ih =>
    rw [List.range'_succ, List.filter_cons]
    by_cases h : l ≤ a
    · have hc : decide (l ≤ a) = true := by simpa using h
      rw [if_pos hc, ih (a + 1)]
      have h1 : max (a + 1) l = a + 1 := by omega
      have h2 : max a l = a := by omega
      have h3 : a + 1 + n - (a + 1) = n := by omega
      have h4 : a + (n + 1) - a = n + 1 := by omega
      rw [h1, h2, h3, h4, List.range'_succ]
    · have hc : decide (l ≤ a) = false := by simpa using h
      rw [if_neg (by simp [hc]), ih (a + 1)]
      have h1 : max (a + 1) l = max a l := by omega
      have h2 : a + 1 + n = a + (n + 1) := by omega
      rw [h1, h2]

/-- A two-sided band filter on `range T` is a contiguous block. -/
theorem range_filter_band (T l c : ℕ) :
    (List.range T).filter (fun i => decide (l ≤ i ∧ i < c)) =
      List.range' l (min c T - l) := by
  have h1 : (List.range T).filter (fun i => decide (l ≤ i ∧ i < c)) =
      ((List.range T).filter (fun i => decide (l ≤ i))).filter
        (fun i => decide (i < c)) := by
    rw [List.filter_filter]
    apply List.filter_congr
    intro x _
    simp [Bool.and_comm]
  rw [h1, List.range_eq_range', range'_filter_ge, range'_filter_lt]
  have h2 : max 0 l = l := by omega
  rw [h2]
  have h3 : min c (l + (0 + T - l)) - l = min c T - l := by omega
  rw [h3]

/-- The label slice `[a, a + n - 1]` over an axis long enough to hold it is the
contiguous index block starting at `a` of length `n`. -/
theorem labelSlice_window (T a n : ℕ) (h : a + n ≤ T) :
    labelSlice T (a : ℤ) ((a : ℤ) + (n : ℤ) - 1) = List.range' a n := by
  rw [labelSlice]
  have hcong : ∀ i ∈ List.range T,
      decide ((a : ℤ) ≤ (i : ℤ) ∧ (i : ℤ) ≤ (a : ℤ) + (n : ℤ) - 1) =
        decide (a ≤ i ∧ i < a + n) := by
    intro i _
    apply decide_eq_decide.mpr
    omega
  rw [List.filter_congr hcong, range_filter_band]
  have h2 : min (a + n) T - a = n := by omega
  rw [h2]

/-- Train-mode `__getitem__` of `BaseDataset`: slice `x` over
`[time - warmup, time + rho - 1]`, slice `y` over `[time, time + rho - 1]`,
and when the attribute row is non-empty tile it `warmup + rho` times and
concatenate it onto each input row (a shape mismatch raises, hence `none`). -/
def getItemTrain {α : Type} (xdat ydat : α → ℕ → List ℚ) (cdat : α → List ℚ)
    (T rho w : ℕ) (entry : α × ℕ) :
    Option (List (List ℚ) × List (List ℚ)) :=
  let xslice := (labelSlice T ((entry.2 : ℤ) - (w : ℤ))
    ((entry.2 : ℤ) + (rho : ℤ) - 1)).map (xdat entry.1)
  let yslice := (labelSlice T (entry.2 : ℤ)
    ((entry.2 : ℤ) + (rho : ℤ) - 1)).map (ydat entry.1)
  if (cdat entry.1).length = 0 then some (xslice, yslice)
  else if xslice.length = w + rho then
    some (xslice.map (fun row => row ++ cdat entry.1), yslice)
  else none

/-- Helper: the two window slices of train-mode indexed access, under the
lookup-table invariant `w ≤ time` and `time + rho ≤ T`. -/
theorem getItemTrain_eq {α : Type} (xdat ydat : α → ℕ → List ℚ)
    (cdat : α → List ℚ) (T rho w : ℕ) (basin : α) (time : ℕ)
    (hw : w ≤ time) (hT : time + rho ≤ T) :
    getItemTrain xdat ydat cdat T rho w (basin, time) =
      if (cdat basin).length = 0 then
        some ((List.range' (time - w) (w + rho)).map (xdat basin),
              (List.range' time rho).map (ydat basin))
      else
        some ((List.range' (time - w) (w + rho)).map
                (fun t => xdat basin t ++ cdat basin),
              (List.range' time rho).map (ydat basin)) := by
  have hx : labelSlice T ((time : ℤ) - (w : ℤ)) ((time : ℤ) + (rho : ℤ) - 1) =
      List.range' (time - w) (w + rho) := by
    have e1 : (time : ℤ) - (w : ℤ) = ((time - w : ℕ) : ℤ) := by omega
    have e2 : (time : ℤ) + (rho : ℤ) - 1 =
        ((time - w : ℕ) : ℤ) + ((w + rho : ℕ) : ℤ) - 1 := by push_cast; omega
    rw [e1, e2, labelSlice_window T (time - w) (w + rho) (by omega)]
  have hy : labelSlice T (time : ℤ) ((time : ℤ) + (rho : ℤ) - 1) =
      List.range' time rho := by
    have e2 : (time : ℤ) + (rho : ℤ) - 1 = (time : ℤ) + ((rho : ℕ) : ℤ) - 1 := by
      ring
    rw [e2, labelSlice_window T time rho (by omega)]
  by_cases hc : (cdat basin).length = 0
  · simp only [getItemTrain, hx, hy, hc, if_pos rfl, if_true]
  · have hlen : ((labelSlice T ((time : ℤ) - (w : ℤ))
        ((time : ℤ) + (rho : ℤ) - 1)).map (xdat basin)).length = w + rho := by
      rw [hx, List.length_map, List.length_range']
    simp only [getItemTrain, hx, hy, hc, if_neg hc, List.length_map,
      List.length_range', if_pos rfl, List.map_map]
    simp [Function.comp]

/-- **C7.** Train-mode indexed access at a lookup entry `(basin, time)` (which
satisfies `w ≤ time` and `time + rho ≤ T`): the input is the normalized
forcing over `[time - w, time + rho - 1]` — with the non-empty attribute row
broadcast across the time axis and concatenated onto each row — and the
target is the normalized target over `[time, time + rho - 1]`, excluding the
warmup period. -/
theorem getitem_train_windows {α : Type} (xdat ydat : α → ℕ → List ℚ)
    (cdat : α → List ℚ) (T rho w : ℕ) (basin : α) (time : ℕ)
    (hw : w ≤ time) (hT : time + rho ≤ T) :
    (cdat basin = [] →
      getItemTrain xdat ydat cdat T rho w (basin, time) =
        some ((List.range' (time - w) (w + rho)).map (xdat basin),
              (List.range' time rho).map (ydat basin))) ∧
    (cdat basin ≠ [] →
      getItemTrain xdat ydat cdat T rho w (basin, time) =
        some ((List.range' (time - w) (w + rho)).map
                (fun t => xdat basin t ++ cdat basin),
              (List.range' time rho).map (ydat basin))) := by
  have h := getItemTrain_eq xdat ydat cdat T rho w basin time hw hT
  constructor
  · intro hc
    rw [h, if_pos (by simp [hc])]
  · intro hc
    rw [h, if_neg (by simpa using hc)]

/-- **C7** witness: `T = 5`, `rho = 2`, `w = 1`, entry `(0, 2)` with one
attribute column. -/
theorem getitem_train_windows_witness :
    ((fun _ : ℕ => ([(7 : ℚ)] : List ℚ)) 0 = [] →
      getItemTrain (fun _ t => [(t : ℚ)]) (fun _ t => [(t : ℚ) + 10])
          (fun _ => [(7 : ℚ)]) 5 2 1 (0, 2) =
        some ((List.range' (2 - 1) (1 + 2)).map ((fun _ t => [(t : ℚ)]) 0),
              (List.range' 2 2).map ((fun _ t => [(t : ℚ) + 10]) 0))) ∧
    ((fun _ : ℕ => ([(7 : ℚ)] : List ℚ)) 0 ≠ [] →
      getItemTrain (fun _ t => [(t : ℚ)]) (fun _ t => [(t : ℚ) + 10])
          (fun _ => [(7 : ℚ)]) 5 2 1 (0, 2) =
        some ((List.range' (2 - 1) (1 + 2)).map
                (fun t => (fun _ t => [(t : ℚ)]) 0 t ++
                  (fun _ : ℕ => ([(7 : ℚ)] : List ℚ)) 0),
              (List.range' 2 2).map ((fun _ t => [(t : ℚ) + 10]) 0))) :=
  getitem_train_windows (fun _ t => [(t : ℚ)]) (fun _ t => [(t : ℚ) + 10])
    (fun _ => [(7 : ℚ)]) 5 2 1 0 2 (by decide) (by decide)

/-! ## BasinSingleFlowDataset (data_sets.py lines 246-260) -/

/-- `BasinSingleFlowDataset.__getitem__`: delegate to `BaseDataset.__getitem__`
and keep only the final target row (`y = ys[-1, :]`; indexing an empty tensor
raises, hence `none`). -/
def singleFlowGetItem {α : Type} (xdat ydat : α → ℕ → List ℚ)
    (cdat : α → List ℚ) (T rho w : ℕ) (entry : α × ℕ) :
    Option (List (List ℚ) × List ℚ) :=
  (getItemTrain xdat ydat cdat T rho w entry).bind
    (fun xy => (xy.2.getLast?).map (fun last => (xy.1, last)))

/-- `BaseDataset.__len__`: lookup-table size in train mode, basin count in
inference mode. -/
def baseDatasetLen (trainMode : Bool) (numSamples nBasins : ℕ) : ℕ :=
  if trainMode then numSamples else nBasins

/-- `BasinSingleFlowDataset.__len__`: always `num_samples`, whatever the mode. -/
def singleFlowLen (_trainMode : Bool) (numSamples _nBasins : ℕ) : ℕ := numSamples

/-- **C10.** `BasinSingleFlowDataset` returns exactly the base dataset's input
tensor and, as target, row `rho - 1` (the final timestep) of the base
dataset's target window; its length is the lookup-table sample count
regardless of mode. -/
theorem single_flow_dataset_spec {α : Type} (xdat ydat : α → ℕ → List ℚ)
    (cdat : α → List ℚ) (T rho w : ℕ) (basin : α) (time : ℕ) (tm : Bool)
    (ns nb : ℕ) (hw : w ≤ time) (hT : time + rho ≤ T) (hr : 0 < rho) :
    singleFlowLen tm ns nb = ns ∧
    ∃ xc ys, getItemTrain xdat ydat cdat T rho w (basin, time) = some (xc, ys) ∧
      singleFlowGetItem xdat ydat cdat T rho w (basin, time) =
        some (xc, ydat basin (time + rho - 1)) ∧
      ys.length = rho ∧ ys[rho - 1]? = some (ydat basin (time + rho - 1)) := by
  refine ⟨rfl, ?_⟩
  have h := getItemTrain_eq xdat ydat cdat T rho w basin time hw hT
  have hyslen : ((List.range' time rho).map (ydat basin)).length = rho := by
    rw [List.length_map, List.length_range']
  have hylast : ((List.range' time rho).map (ydat basin))[rho - 1]? =
      some (ydat basin (time + rho - 1)) := by
    have hlt : rho - 1 < (List.range' time rho).length := by
      rw [List.length_range']; omega
    rw [List.getElem?_map, List.getElem?_eq_getElem hlt]
    have : (List.range' time rho)[rho - 1] = time + (rho - 1) :=
      List.getElem_range'_1 (rho - 1) hlt
    rw [this]
    have harith : time + (rho - 1) = time + rho - 1 := by omega
    rw [harith]
    rfl
  have hgetLast : ((List.range' time rho).map (ydat basin)).getLast? =
      some (ydat basin (time + rho - 1)) := by
    rw [List.getLast?_eq_getElem?, hyslen, hylast]
  by_cases hc : (cdat basin).length = 0
  · refine ⟨(List.range' (time - w) (w + rho)).map (xdat basin),
      (List.range' time rho).map (ydat basin), ?_, ?_, hyslen, hylast⟩
    · rw [h, if_pos hc]
    · simp [singleFlowGetItem, h, hc, hgetLast]
  · refine ⟨(List.range' (time - w) (w + rho)).map
        (fun t => xdat basin t ++ cdat basin),
      (List.range' time rho).map (ydat basin), ?_, ?_, hyslen, hylast⟩
    · rw [h, if_neg hc]
    · simp [singleFlowGetItem, h, hc, hgetLast]

/-- **C10** witness: `T = 5`, `rho = 2`, `w = 1`, entry `(0, 2)`, no
attributes, inference mode, `num_samples = 9` and 3 basins. -/
theorem single_flow_dataset_spec_witness :
    singleFlowLen false 9 3 = 9 ∧
    ∃ xc ys, getItemTrain (fun _ t => [(t : ℚ)]) (fun _ t => [(t : ℚ)])
        (fun _ => []) 5 2 1 ((0 : ℕ), 2) = some (xc, ys) ∧
      singleFlowGetItem (fun _ t => [(t : ℚ)]) (fun _ t => [(t : ℚ)])
          (fun _ => []) 5 2 1 ((0 : ℕ), 2) =
        some (xc, [((2 + 2 - 1 : ℕ) : ℚ)]) ∧
      ys.length = 2 ∧ ys[2 - 1]? = some [((2 + 2 - 1 : ℕ) : ℚ)] :=
  single_flow_dataset_spec (fun _ t => [(t : ℚ)]) (fun _ t => [(t : ℚ)])
    (fun _ => []) 5 2 1 0 2 false 9 3 (by decide) (by decide) (by decide)

/-! ## Epoch sampling (`KuaiSampler.__init__`, data_sets.py lines 296-307)

The sampler hands `num_samples = n_iter_ep * batch_size` to the random
sampler. The draw contract itself (uniform, with replacement, from the lookup
ids) is the specification's description of the sampler component; the drawing
code is torch's `RandomSampler`, outside this repository, so it is modelled
from the spec. -/

/-- Modelled from the spec: an admissible epoch draw is any sequence of
`numSamples` ids over the `N` lookup-table ids — drawn with replacement, so
repeats are allowed and the sequence need not be a permutation. -/
def epochDrawAdmissible (numSamples N : ℕ) (draw : List ℕ) : Bool :=
  draw.length == numSamples && draw.all (fun i => decide (i < N))

/-- **C8.** The epoch sample count is `n_iter * b` for the (possibly shrunk
and floored) batch size `b`, where `n_iter` — written in the code as
`ceil(log 0.01 / log(1 - b*rho/ngrid/(nt-w)))` — equals the claimed
`ceil(ln 0.01 / ln(1 - b*rho/(ngrid*(nt-w))))`; and epoch draws are sequences
of lookup ids with replacement (a constant sequence is admissible and is not
a permutation). -/
theorem kuai_epoch_sample_count (b rho ngrid nt w b2 ns N : ℕ)
    (hshrink : kuaiShrunkBatch b rho ngrid nt = some b2)
    (hns : 2 ≤ ns) (hN : 0 < N) :
    kuaiNumSamples b rho ngrid nt w = some (nIterEp b2 rho ngrid nt w * (b2 : ℤ)) ∧
    nIterEp b2 rho ngrid nt w =
      Int.ceil (Real.log (1 / 100) /
        Real.log (1 - (b2 : ℝ) * (rho : ℝ) / ((ngrid : ℝ) * ((nt : ℝ) - (w : ℝ))))) ∧
    epochDrawAdmissible ns N (List.replicate ns 0) = true ∧
    ¬ (List.replicate ns 0).Nodup := by
  refine ⟨?_, ?_, ?_, ?_⟩
  · rw [kuaiNumSamples, hshrink, Option.map_some']
  · rw [nIterEp, div_div]
  · simp only [epochDrawAdmissible, List.length_replicate, beq_self_eq_true,
      Bool.true_and, List.all_eq_true, List.mem_replicate]
    intro i hi
    simp [hi.2, hN]
  · rw [List.nodup_replicate]
    omega

/-- **C8** witness: with `b = 5`, `rho = 3`, `ngrid = 2`, `nt = 10` the loop
leaves the batch size at 5; the constant two-draw epoch over one lookup id is
admissible and has a repeat. -/
theorem kuai_epoch_sample_count_witness :
    kuaiNumSamples 5 3 2 10 1 = some (nIterEp 5 3 2 10 1 * ((5 : ℕ) : ℤ)) ∧
    nIterEp 5 3 2 10 1 =
      Int.ceil (Real.log (1 / 100) /
        Real.log (1 - ((5 : ℕ) : ℝ) * ((3 : ℕ) : ℝ) /
          (((2 : ℕ) : ℝ) * (((10 : ℕ) : ℝ) - ((1 : ℕ) : ℝ))))) ∧
    epochDrawAdmissible 2 1 (List.replicate 2 0) = true ∧
    ¬ (List.replicate 2 0).Nodup :=
  kuai_epoch_sample_count 5 3 2 10 1 5 2 1 (by decide) (by decide) (by decide)

/-! ## DplDataset target-as-input composition (data_sets.py lines 330-335, 394-418) -/

/-- Attribute names assigned on a `DplDataset` instance by
`BaseDataset.__init__`, `BaseDataset._load_data` and `DplDataset.__init__`;
there is no `sel` among them (nor any method of that name on the class or its
bases). -/
def dplDatasetAttrs : List String :=
  ["data_source", "data_params", "loader_type", "t_s_dict", "x_origin",
   "y_origin", "c_origin", "x", "y", "c", "train_mode", "rho", "target_scaler",
   "warmup_length", "lookup_table", "num_samples", "target_as_input",
   "constant_only", "train_dataset"]

/-- `DplDataset.__init__` builds the internal training-mode instance exactly
when `target_as_input` is set and the instance is not in train mode. -/
def dplBuildsTrainInstance (targetAsInput trainMode : Bool) : Bool :=
  targetAsInput && !trainMode

inductive PyEval (α : Type) : Type
  | ok (a : α)
  | attributeError (attr : String)
deriving DecidableEq

/-- The `x_norm` step of inference-mode `DplDataset.__getitem__`:
`x_norm = self.x.sel(basin=basin)...`, then, when `target_as_input` is set,
`x_norm = self.train_dataset.sel(basin=basin)...` — an attribute access of
`"sel"` on the held training-mode dataset instance, which succeeds only if the
instance has such an attribute (the training series would have to be reached
through `self.train_dataset.x`). -/
def dplInferXNorm (targetAsInput : Bool) (selfX trainX : ℕ → List ℚ)
    (basin : ℕ) : PyEval (List ℚ) :=
  if targetAsInput then
    if "sel" ∈ dplDatasetAttrs then PyEval.ok (trainX basin)
    else PyEval.attributeError "sel"
  else PyEval.ok (selfX basin)

/-- **C9.** The physically-constrained dataset in inference mode with
`target_as_input` does build a training-mode instance of itself at
construction; but indexed access then looks up the attribute `sel` on that
instance, which `DplDataset` does not have, so the access raises
`AttributeError` instead of returning the training-period series: the claim
describes the intent, the code has a slip. -/
theorem dpl_target_as_input_inference_bug :
    dplBuildsTrainInstance true false = true ∧
    ¬ ("sel" ∈ dplDatasetAttrs) ∧
    dplInferXNorm true (fun _ => [0]) (fun _ => [1]) 0 =
      PyEval.attributeError "sel" := by
  refine ⟨rfl, by decide, by decide⟩

end TorchHydro
